import Mathlib

/-!
# Verification of the `@yyberi/logger` registry and hierarchy manager

Shallow embedding of the registry variant of the `Logger` class: a
process-wide cache mapping a service-name key to its root logger node,
tree-shaped logger nodes holding a mutable backend severity threshold and
an append-only children list, `child` derivation with `name → module`
binding renaming, a recursive `setLogLevel` cascade, and verbatim
forwarding of the five leveled emission methods.

The backend (pino) is modelled as an opaque collaborator: each node owns
exactly one backend handle, whose only mutable state visible to this core
is its severity threshold (stored on the node), and every call the core
makes into the backend is recorded as an event on a trace.  Node identity
(JavaScript object identity) is modelled by an index into an arena of
nodes kept in the process state.
-/

set_option autoImplicit false

/-- The five severity levels of the `LogLevel` enum. -/
inductive LogLevel where
  | FATAL
  | ERROR
  | WARN
  | INFO
  | DEBUG
deriving DecidableEq, Repr

/-- The string value of each `LogLevel` enum member. -/
def levelStr : LogLevel → String
  | .FATAL => "fatal"
  | .ERROR => "error"
  | .WARN => "warn"
  | .INFO => "info"
  | .DEBUG => "debug"

/-- A JavaScript value as it occurs in a bindings object: either
`undefined` or a defined (string) value.  Other value shapes are opaque to
the core, which only moves them around, so strings stand in for them. -/
inductive JVal where
  | undef
  | str (s : String)
deriving DecidableEq, Repr

/-- A JavaScript plain object used as pino `Bindings`: an ordered list of
key/value pairs with pairwise-distinct keys. -/
abbrev Bindings := List (String × JVal)

/-- JavaScript property access `b[k]`: the value stored under `k`, or
`undefined` when the key is absent. -/
def jsGet (b : Bindings) (k : String) : JVal :=
  (List.lookup k b).getD JVal.undef

/-- JavaScript spread-update `{...o, k: v}`: if `k` is already a key of
`o` its value is overwritten in place, otherwise the pair is appended. -/
def objSet (o : Bindings) (k : String) (v : JVal) : Bindings :=
  if o.any (fun p => p.1 == k) then
    o.map (fun p => if p.1 == k then (k, v) else p)
  else
    o ++ [(k, v)]

/-- The bindings handed to the backend by `Logger.child`:
`const { name, ...rest } = bindings; { ...rest, module: bindings.name }`. -/
def childBindings (bindings : Bindings) : Bindings :=
  let moduleName := jsGet bindings "name"
  let rest := bindings.filter (fun p => p.1 != "name")
  objSet rest "module" moduleName

/-- The process environment read by the module: `NODE_ENV`, `LOG_DIR`,
`npm_package_version` (each possibly unset) and the working directory. -/
structure Env where
  NODE_ENV : Option String
  LOG_DIR : Option String
  npm_package_version : Option String
  cwd : String
deriving DecidableEq, Repr

/-- Models Node's `path.join` on already-normalised segments. -/
def pathJoin (a b : String) : String := a ++ "/" ++ b

/-- Source: `const logDir = process.env.LOG_DIR ?? path.join(process.cwd(), 'logs')`. -/
def logDir (e : Env) : String := e.LOG_DIR.getD (pathJoin e.cwd "logs")

/-- Source: `const logFile = path.join(logDir, 'app.log')`. -/
def logFile (e : Env) : String := pathJoin (logDir e) "app.log"

/-- Source: `const DEFAULT_SERVICE_NAME = '@juntu/logger'`. -/
def DEFAULT_SERVICE_NAME : String := "@juntu/logger"

/-- JavaScript `String.prototype.trim` (whitespace stripped from both
ends), modelled on the underlying character list. -/
def jsTrim (s : String) : String :=
  ⟨((s.data.dropWhile Char.isWhitespace).reverse.dropWhile Char.isWhitespace).reverse⟩

/-- JavaScript `String.prototype.toLowerCase`, modelled characterwise. -/
def jsToLower (s : String) : String := ⟨s.data.map Char.toLower⟩

/-- Source: `(process.env.NODE_ENV || '').trim().toLowerCase()`. -/
def normalizedEnv (e : Env) : String := jsToLower (jsTrim (e.NODE_ENV.getD ""))

/-- The `options` object of the production file transport target. -/
structure FileTargetOptions where
  destination : String
  mkdir : Bool
  sync : Bool
deriving DecidableEq, Repr

/-- One entry of `transport.targets` in the production pino config. -/
structure FileTarget where
  target : String
  level : String
  options : FileTargetOptions
deriving DecidableEq, Repr

/-- The pino `LoggerOptions` the constructor hands to the backend factory:
transport targets (empty in development), minimum severity, optional
custom message key, whether a custom timestamp function is supplied, and
the base fields (values are `Option String` because environment-sourced
fields may be unset). -/
structure PinoConfig where
  targets : List FileTarget
  level : String
  messageKey : Option String
  hasTimestamp : Bool
  base : List (String × Option String)
deriving DecidableEq, Repr

/-- The production-branch config built in the `Logger` constructor. -/
def prodConfig (e : Env) (serviceName : String) : PinoConfig :=
  { targets := [{ target := "pino/file", level := "info",
                  options := { destination := logFile e, mkdir := true, sync := false } }],
    level := "info",
    messageKey := some "message",
    hasTimestamp := true,
    base := [("env", e.NODE_ENV), ("version", e.npm_package_version),
             ("service", some serviceName)] }

/-- The development-branch config built in the `Logger` constructor
(the pretty sink itself is recorded separately on the creation event). -/
def devConfig (serviceName : String) : PinoConfig :=
  { targets := [],
    level := "debug",
    messageKey := none,
    hasTimestamp := false,
    base := [("service", some serviceName)] }

/-- The config the root branch of the constructor hands to `pinoFactory`,
selected on the normalised `NODE_ENV`. -/
def rootConfig (e : Env) (serviceName : String) : PinoConfig :=
  if normalizedEnv e = "production" then prodConfig e serviceName
  else devConfig serviceName

/-- One call made by the core into the backend, in program order:
handle construction (with its config and whether the pretty sink was
passed as second argument), child-handle derivation, a severity-threshold
assignment, or a leveled emission. -/
inductive BEvent where
  | create (cfg : PinoConfig) (prettySink : Bool)
  | childEv (parent : Nat) (bindings : Bindings)
  | setLevelEv (node : Nat) (level : String)
  | logEv (node : Nat) (method : LogLevel) (msg : String) (args : List String)
deriving DecidableEq, Repr

/-- One `Logger` node: the mutable severity threshold of its backend
handle, and the indices of its children in creation order. -/
structure Node where
  level : String
  children : List Nat
deriving DecidableEq, Repr

/-- The process-wide state: the arena of all live `Logger` nodes (a node's
identity is its index), the registry `Logger.instances`, and the trace of
backend calls made so far. -/
structure St where
  nodes : List Node
  instances : List (String × Nat)
  trace : List BEvent
deriving DecidableEq, Repr

/-- The state at module load: no nodes, empty registry, no backend calls. -/
def initSt : St := { nodes := [], instances := [], trace := [] }

/-- Source: `const name = serviceName || DEFAULT_SERVICE_NAME` (JavaScript `||`
falls through on `undefined` and on the empty string). -/
def keyOf : Option String → String
  | none => DEFAULT_SERVICE_NAME
  | some s => if s = "" then DEFAULT_SERVICE_NAME else s

/-- Embeds `Logger.getInstance(serviceName?)`: default the key, return the cached
root for it, or construct one (one backend factory call), cache it and
return it.  Returns the node's identity together with the new state. -/
def Logger.getInstance (e : Env) (serviceName : Option String) (st : St) : Nat × St :=
  let name := keyOf serviceName
  match List.lookup name st.instances with
  | some i => (i, st)
  | none =>
      let cfg := rootConfig e name
      let idx := st.nodes.length
      (idx, { nodes := st.nodes ++ [{ level := cfg.level, children := [] }],
              instances := st.instances ++ [(name, idx)],
              trace := st.trace ++ [BEvent.create cfg (normalizedEnv e != "production")] })

/-- Embeds `Logger.child(bindings)` on the node at index `i`: rename `name` to
`module`, derive a backend child handle (which inherits the parent's
current threshold), wrap it in a new node, append it to the caller's
`children` and return it.  On a dangling index (impossible for a held
reference) the state is unchanged. -/
def Logger.child (i : Nat) (bindings : Bindings) (st : St) : Nat × St :=
  match st.nodes[i]? with
  | none => (i, st)
  | some nd =>
      let idx := st.nodes.length
      (idx, { nodes := (st.nodes.set i { nd with children := nd.children ++ [idx] })
                         ++ [{ level := nd.level, children := [] }],
              instances := st.instances,
              trace := st.trace ++ [BEvent.childEv i (childBindings bindings)] })

/-- Recursive worker for `setLogLevel`: assign the node's own backend
threshold, then recurse into its children in order.  The fuel argument
bounds the recursion depth; `Logger.setLogLevel` supplies more fuel than
any parent-to-child chain can be long, so on well-formed states the fuel
never runs out. -/
def setLogLevelAux (lv : String) : Nat → Nat → St → St
  | 0, _, st => st
  | fuel + 1, i, st =>
      match st.nodes[i]? with
      | none => st
      | some nd =>
          let st1 : St := { st with
            nodes := st.nodes.set i { nd with level := lv },
            trace := st.trace ++ [BEvent.setLevelEv i lv] }
          nd.children.foldl (fun s c => setLogLevelAux lv fuel c s) st1

/-- Embeds `Logger.setLogLevel(level)` on the node at index `i`:
`this.logger.level = level; this.children.forEach(c => c.setLogLevel(level))`. -/
def Logger.setLogLevel (i : Nat) (level : LogLevel) (st : St) : St :=
  setLogLevelAux (levelStr level) (st.nodes.length + 1) i st

/-- Embeds `Logger.fatal(msg, ...args)`: forwards verbatim to the handle. -/
def Logger.fatal (i : Nat) (msg : String) (args : List String) (st : St) : St :=
  { st with trace := st.trace ++ [BEvent.logEv i LogLevel.FATAL msg args] }

/-- Embeds `Logger.error(msg, ...args)`: forwards verbatim to the handle. -/
def Logger.error (i : Nat) (msg : String) (args : List String) (st : St) : St :=
  { st with trace := st.trace ++ [BEvent.logEv i LogLevel.ERROR msg args] }

/-- Embeds `Logger.warn(msg, ...args)`: forwards verbatim to the handle. -/
def Logger.warn (i : Nat) (msg : String) (args : List String) (st : St) : St :=
  { st with trace := st.trace ++ [BEvent.logEv i LogLevel.WARN msg args] }

/-- Embeds `Logger.info(msg, ...args)`: forwards verbatim to the handle. -/
def Logger.info (i : Nat) (msg : String) (args : List String) (st : St) : St :=
  { st with trace := st.trace ++ [BEvent.logEv i LogLevel.INFO msg args] }

/-- Embeds `Logger.debug(msg, ...args)`: forwards verbatim to the handle. -/
def Logger.debug (i : Nat) (msg : String) (args : List String) (st : St) : St :=
  { st with trace := st.trace ++ [BEvent.logEv i LogLevel.DEBUG msg args] }

/-! ## Spec-side descriptions and invariants -/

/-- The tree structure of the arena: each node's children list, by index. -/
def struct (st : St) : List (List Nat) := st.nodes.map Node.children

/-- Modelled from the spec: the depth-first pre-order traversal of the
subtree rooted at `i` — the node itself first, then, for each child in
the order it was added, that child's subtree.  The fuel argument bounds
the traversal depth; any fuel larger than every parent-to-child index
chain (e.g. the arena size) is enough on a well-formed arena. -/
def specPreorder : Nat → Nat → List (List Nat) → List Nat
  | 0, _, _ => []
  | fuel + 1, i, chs =>
      match chs[i]? with
      | none => []
      | some cs => i :: cs.flatMap (fun c => specPreorder fuel c chs)

/-- Severity-threshold assignment on an optional node. -/
def bump (lv : String) : Option Node → Option Node :=
  Option.map (fun nd => { nd with level := lv })

/-- Arena well-formedness from index `k` on: every child index is
strictly greater than its parent's index and within bounds.  This holds
in every reachable state because a child node is always appended at the
end of the arena, after its parent. -/
def nodesWF : Nat → List Node → Nat → Bool
  | _, [], _ => true
  | k, nd :: rest, n =>
      nd.children.all (fun c => decide (k < c) && decide (c < n)) && nodesWF (k + 1) rest n

/-- Well-formed state: the arena is a forest whose edges point forward. -/
def WF (st : St) : Prop := nodesWF 0 st.nodes st.nodes.length = true

/-- Registry well-formedness: pairwise-distinct keys, pairwise-distinct
root nodes, and every registered root lives in the arena. -/
def regWF (st : St) : Prop :=
  (st.instances.map Prod.fst).Nodup ∧ (st.instances.map Prod.snd).Nodup ∧
    ∀ p ∈ st.instances, p.2 < st.nodes.length

instance (st : St) : Decidable (WF st) := by
  unfold WF
  infer_instance

instance (st : St) : Decidable (regWF st) := by
  unfold regWF
  infer_instance

/-! ## Association-list helper lemmas -/

theorem lookup_mem_snd {α β : Type} [BEq α] {l : List (α × β)} {k : α} {v : β}
    (h : List.lookup k l = some v) : v ∈ l.map Prod.snd := by
  induction l with
  | nil => simp [List.lookup] at h
  | cons p t ih =>
      obtain ⟨a, w⟩ := p
      rw [List.lookup_cons] at h
      cases hk : (k == a) with
      | true => simp [hk] at h; simp [h]
      | false => simp [hk] at h; simp [ih h]

theorem lookup_nodup_ne {α β : Type} [BEq α] [LawfulBEq α]
    {l : List (α × β)} {k1 k2 : α} {v1 v2 : β}
    (hnd : (l.map Prod.snd).Nodup) (hk : k1 ≠ k2)
    (h1 : List.lookup k1 l = some v1) (h2 : List.lookup k2 l = some v2) : v1 ≠ v2 := by
  induction l with
  | nil => simp [List.lookup] at h1
  | cons p t ih =>
      obtain ⟨a, w⟩ := p
      rw [List.lookup_cons] at h1 h2
      simp only [List.map_cons, List.nodup_cons] at hnd
      cases ha : (k1 == a) with
      | true =>
          cases hb : (k2 == a) with
          | true => exact absurd (by rw [eq_of_beq ha, eq_of_beq hb]) hk
          | false =>
              simp [ha] at h1
              simp [hb] at h2
              subst h1
              exact fun hv => hnd.1 (hv ▸ lookup_mem_snd h2)
      | false =>
          cases hb : (k2 == a) with
          | true =>
              simp [ha] at h1
              simp [hb] at h2
              subst h2
              exact fun hv => hnd.1 (hv ▸ lookup_mem_snd h1)
          | false =>
              simp [ha] at h1
              simp [hb] at h2
              exact ih hnd.2 h1 h2

theorem lookup_append_of_none {α β : Type} [BEq α] {l l2 : List (α × β)} {k : α}
    (h : List.lookup k l = none) : List.lookup k (l ++ l2) = List.lookup k l2 := by
  induction l with
  | nil => simp
  | cons p t ih =>
      obtain ⟨a, w⟩ := p
      rw [List.lookup_cons] at h
      rw [List.cons_append, List.lookup_cons]
      cases ha : (k == a) with
      | true => simp [ha] at h
      | false => simp [ha] at h ⊢; exact ih h

theorem lookup_append_of_some {α β : Type} [BEq α] {l l2 : List (α × β)} {k : α} {v : β}
    (h : List.lookup k l = some v) : List.lookup k (l ++ l2) = some v := by
  induction l with
  | nil => simp [List.lookup] at h
  | cons p t ih =>
      obtain ⟨a, w⟩ := p
      rw [List.lookup_cons] at h
      rw [List.cons_append, List.lookup_cons]
      cases ha : (k == a) with
      | true => simpa [ha] using h
      | false => simp [ha] at h ⊢; exact ih h

theorem lookup_single_ne {α β : Type} [BEq α] [LawfulBEq α] {k k2 : α} {v : β}
    (hne : k ≠ k2) : List.lookup k [(k2, v)] = none := by
  have hb : (k == k2) = false := beq_eq_false_iff_ne.mpr hne
  simp [List.lookup, hb]

/-! ## Bindings-rewrite lemmas for `childBindings` -/

theorem any_false_lookup_none {o : Bindings} {k0 : String}
    (h : o.any (fun p => p.1 == k0) = false) : List.lookup k0 o = none := by
  induction o with
  | nil => simp
  | cons p t ih =>
      obtain ⟨a, w⟩ := p
      simp only [List.any_cons, Bool.or_eq_false_iff] at h
      have ha : (k0 == a) = false := by
        have : a ≠ k0 := by simpa using h.1
        exact beq_eq_false_iff_ne.mpr (Ne.symm this)
      rw [List.lookup_cons]
      simp [ha, ih h.2]

theorem lookup_map_replace_self {o : Bindings} {k0 : String} (v : JVal)
    (h : o.any (fun p => p.1 == k0) = true) :
    List.lookup k0 (o.map (fun p => if p.1 == k0 then (k0, v) else p)) = some v := by
  induction o with
  | nil => simp at h
  | cons p t ih =>
      obtain ⟨a, w⟩ := p
      cases ha : (a == k0) with
      | true =>
          rw [List.map_cons,
              show (if (((a, w).1 == k0) : Bool) then ((k0, v) : String × JVal) else (a, w))
                  = (k0, v) from by simp [ha],
              List.lookup_cons]
          simp
      | false =>
          have h1 : ((a == k0) = true) ∨ (t.any (fun p => p.1 == k0) = true) := by
            rw [List.any_cons] at h
            exact Bool.or_eq_true_iff.mp h
          have h2 : t.any (fun p => p.1 == k0) = true := by
            rcases h1 with h1 | h1
            · rw [ha] at h1; cases h1
            · exact h1
          rw [List.map_cons,
              show (if (((a, w).1 == k0) : Bool) then ((k0, v) : String × JVal) else (a, w))
                  = (a, w) from by simp [ha],
              List.lookup_cons]
          have hk : (k0 == a) = false := beq_eq_false_iff_ne.mpr (Ne.symm (by simpa using ha))
          simp only [hk]
          exact ih h2

theorem lookup_map_replace_ne {o : Bindings} {k0 k : String} (v : JVal) (h : k ≠ k0) :
    List.lookup k (o.map (fun p => if p.1 == k0 then (k0, v) else p)) = List.lookup k o := by
  induction o with
  | nil => simp
  | cons p t ih =>
      obtain ⟨a, w⟩ := p
      cases ha : (a == k0) with
      | true =>
          have hak : a = k0 := by simpa using ha
          have h1 : (k == k0) = false := beq_eq_false_iff_ne.mpr h
          have h2 : (k == a) = false := by rw [hak]; exact h1
          rw [List.map_cons,
              show (if (((a, w).1 == k0) : Bool) then ((k0, v) : String × JVal) else (a, w))
                  = (k0, v) from by simp [ha],
              List.lookup_cons, List.lookup_cons]
          simp only [h1, h2]
          exact ih
      | false =>
          rw [List.map_cons,
              show (if (((a, w).1 == k0) : Bool) then ((k0, v) : String × JVal) else (a, w))
                  = (a, w) from by simp [ha],
              List.lookup_cons, List.lookup_cons]
          cases hk : (k == a) with
          | true => simp only [hk]
          | false => simp only [hk]; exact ih

theorem objSet_lookup_self (o : Bindings) (k0 : String) (v : JVal) :
    List.lookup k0 (objSet o k0 v) = some v := by
  unfold objSet
  cases h : o.any (fun p => p.1 == k0) with
  | true =>
      rw [if_pos rfl]
      exact lookup_map_replace_self v h
  | false =>
      rw [if_neg Bool.false_ne_true]
      rw [lookup_append_of_none (any_false_lookup_none h)]
      rw [List.lookup_cons]
      simp

theorem objSet_lookup_ne {o : Bindings} {k0 k : String} (v : JVal) (h : k ≠ k0) :
    List.lookup k (objSet o k0 v) = List.lookup k o := by
  unfold objSet
  cases ha : o.any (fun p => p.1 == k0) with
  | true =>
      rw [if_pos rfl]
      exact lookup_map_replace_ne v h
  | false =>
      rw [if_neg Bool.false_ne_true]
      cases hl : List.lookup k o with
      | some w => exact lookup_append_of_some hl
      | none =>
          rw [lookup_append_of_none hl, lookup_single_ne h]

theorem lookup_filter_name_none (b : Bindings) :
    List.lookup "name" (b.filter (fun p => p.1 != "name")) = none := by
  induction b with
  | nil => simp
  | cons p t ih =>
      obtain ⟨a, w⟩ := p
      rw [List.filter_cons]
      cases ha : (a == "name") with
      | true =>
          rw [show (((a, w).1 != "name") : Bool) = false from by simp [bne, ha],
              if_neg Bool.false_ne_true]
          exact ih
      | false =>
          rw [show (((a, w).1 != "name") : Bool) = true from by simp [bne, ha],
              if_pos rfl, List.lookup_cons]
          have hna : ("name" == a) = false :=
            beq_eq_false_iff_ne.mpr (Ne.symm (by simpa using ha))
          simp only [hna]
          exact ih

theorem lookup_filter_name_ne {b : Bindings} {k : String} (h : k ≠ "name") :
    List.lookup k (b.filter (fun p => p.1 != "name")) = List.lookup k b := by
  induction b with
  | nil => simp
  | cons p t ih =>
      obtain ⟨a, w⟩ := p
      rw [List.filter_cons]
      cases ha : (a == "name") with
      | true =>
          rw [show (((a, w).1 != "name") : Bool) = false from by simp [bne, ha],
              if_neg Bool.false_ne_true, List.lookup_cons]
          have hk : (k == a) = false := by
            have haname : a = "name" := by simpa using ha
            rw [haname]
            exact beq_eq_false_iff_ne.mpr h
          simp only [hk]
          exact ih
      | false =>
          rw [show (((a, w).1 != "name") : Bool) = true from by simp [bne, ha],
              if_pos rfl, List.lookup_cons, List.lookup_cons]
          cases hk : (k == a) with
          | true => simp only [hk]
          | false => simp only [hk]; exact ih

/-- The derived bindings bind `module` to the (renamed) value of `name`. -/
theorem childBindings_module (b : Bindings) :
    List.lookup "module" (childBindings b) = some (jsGet b "name") := by
  unfold childBindings
  exact objSet_lookup_self _ _ _

/-- The derived bindings carry no `name` key. -/
theorem childBindings_name (b : Bindings) :
    List.lookup "name" (childBindings b) = none := by
  unfold childBindings
  rw [objSet_lookup_ne _ (by decide)]
  exact lookup_filter_name_none b

/-- Every field other than `name`/`module` is passed through unchanged. -/
theorem childBindings_other {b : Bindings} {k : String}
    (h1 : k ≠ "name") (h2 : k ≠ "module") :
    List.lookup k (childBindings b) = List.lookup k b := by
  unfold childBindings
  rw [objSet_lookup_ne _ h2]
  exact lookup_filter_name_ne h1

/-! ## `setLogLevel` cascade lemmas -/

theorem set_getElem?_same {α : Type} : ∀ {l : List α} {i : Nat} {a : α},
    l[i]? = some a → l.set i a = l := by
  intro l
  induction l with
  | nil => intro i a h; simp at h
  | cons x t ihl =>
      intro i a h
      cases i with
      | zero => simp at h; simp [h]
      | succ i => simp at h; simp [ihl h]

theorem bump_idem (lv : String) (o : Option Node) : bump lv (bump lv o) = bump lv o := by
  cases o with
  | none => rfl
  | some nd => rfl

theorem struct_getElem? {st : St} {i : Nat} :
    (struct st)[i]? = (st.nodes[i]?).map Node.children := by
  rw [struct, List.getElem?_map]

theorem setLogLevelAux_struct (lv : String) :
    ∀ fuel i st, struct (setLogLevelAux lv fuel i st) = struct st ∧
      (setLogLevelAux lv fuel i st).instances = st.instances := by
  intro fuel
  induction fuel with
  | zero => intro i st; exact ⟨rfl, rfl⟩
  | succ fuel ih =>
      intro i st
      have hfold : ∀ (cs : List Nat) (s : St),
          struct (cs.foldl (fun s c => setLogLevelAux lv fuel c s) s) = struct s ∧
          (cs.foldl (fun s c => setLogLevelAux lv fuel c s) s).instances = s.instances := by
        intro cs
        induction cs with
        | nil => intro s; exact ⟨rfl, rfl⟩
        | cons c cs ihc =>
            intro s
            rw [List.foldl_cons]
            refine ⟨?_, ?_⟩
            · rw [(ihc _).1, (ih c s).1]
            · rw [(ihc _).2, (ih c s).2]
      show struct (setLogLevelAux lv (fuel + 1) i st) = struct st ∧
        (setLogLevelAux lv (fuel + 1) i st).instances = st.instances
      rw [setLogLevelAux]
      cases hnd : st.nodes[i]? with
      | none => exact ⟨rfl, rfl⟩
      | some nd =>
          refine ⟨?_, ?_⟩
          · rw [(hfold _ _).1]
            show (st.nodes.set i { nd with level := lv }).map Node.children = struct st
            rw [List.map_set]
            exact set_getElem?_same (by rw [List.getElem?_map, hnd]; rfl)
          · rw [(hfold _ _).2]

theorem struct_set_level {st : St} {i : Nat} {nd : Node} (lv : String)
    (hnd : st.nodes[i]? = some nd) :
    (st.nodes.set i { nd with level := lv }).map Node.children = struct st := by
  rw [List.map_set]
  exact set_getElem?_same (by rw [List.getElem?_map, hnd]; rfl)

theorem setLogLevelAux_trace (lv : String) :
    ∀ fuel i st, (setLogLevelAux lv fuel i st).trace
      = st.trace ++ (specPreorder fuel i (struct st)).map (fun j => BEvent.setLevelEv j lv) := by
  intro fuel
  induction fuel with
  | zero => intro i st; simp [setLogLevelAux, specPreorder]
  | succ fuel ih =>
      intro i st
      have hfold : ∀ (cs : List Nat) (s : St), struct s = struct st →
          (cs.foldl (fun s c => setLogLevelAux lv fuel c s) s).trace
            = s.trace ++ (cs.flatMap (fun c => specPreorder fuel c (struct st))).map
                (fun j => BEvent.setLevelEv j lv) := by
        intro cs
        induction cs with
        | nil => intro s hs; simp
        | cons c cs ihc =>
            intro s hs
            rw [List.foldl_cons]
            have hs' : struct (setLogLevelAux lv fuel c s) = struct st := by
              rw [(setLogLevelAux_struct lv fuel c s).1, hs]
            rw [ihc _ hs', ih c s, hs]
            rw [List.flatMap_cons, List.map_append, List.append_assoc]
      show (setLogLevelAux lv (fuel + 1) i st).trace = _
      rw [setLogLevelAux]
      cases hnd : st.nodes[i]? with
      | none =>
          have hpre : specPreorder (fuel + 1) i (struct st) = [] := by
            rw [specPreorder, struct_getElem?, hnd]
            rfl
          rw [hpre]
          simp
      | some nd =>
          have hpre : specPreorder (fuel + 1) i (struct st)
              = i :: nd.children.flatMap (fun c => specPreorder fuel c (struct st)) := by
            rw [specPreorder, struct_getElem?, hnd]
            rfl
          have hs1 : struct { st with
              nodes := st.nodes.set i { nd with level := lv },
              trace := st.trace ++ [BEvent.setLevelEv i lv] } = struct st :=
            struct_set_level lv hnd
          rw [hfold _ _ hs1, hpre]
          simp [List.append_assoc]

theorem setLogLevelAux_cases (lv : String) :
    ∀ (fuel i : Nat) (st : St) (j : Nat),
      (setLogLevelAux lv fuel i st).nodes[j]? = st.nodes[j]? ∨
      (setLogLevelAux lv fuel i st).nodes[j]? = bump lv st.nodes[j]? := by
  intro fuel
  induction fuel with
  | zero => intro i st j; exact Or.inl rfl
  | succ fuel ih =>
      intro i st j
      have hfold : ∀ (cs : List Nat) (s : St),
          (s.nodes[j]? = st.nodes[j]? ∨ s.nodes[j]? = bump lv st.nodes[j]?) →
          ((cs.foldl (fun s c => setLogLevelAux lv fuel c s) s).nodes[j]? = st.nodes[j]? ∨
           (cs.foldl (fun s c => setLogLevelAux lv fuel c s) s).nodes[j]? = bump lv st.nodes[j]?) := by
        intro cs
        induction cs with
        | nil => intro s h; exact h
        | cons c cs ihc =>
            intro s h
            rw [List.foldl_cons]
            apply ihc
            rcases ih c s j with h2 | h2
            · rw [h2]; exact h
            · rw [h2]
              rcases h with h1 | h1
              · rw [h1]; exact Or.inr rfl
              · rw [h1, bump_idem]; exact Or.inr rfl
      rw [setLogLevelAux]
      cases hnd : st.nodes[i]? with
      | none => exact Or.inl rfl
      | some nd =>
          apply hfold
          by_cases hij : i = j
          · subst hij
            have hlen : i < st.nodes.length := (List.getElem?_eq_some.mp hnd).1
            rw [List.getElem?_set_eq_of_lt _ hlen, hnd]
            exact Or.inr rfl
          · rw [List.getElem?_set_ne hij]
            exact Or.inl rfl

theorem setLogLevelAux_not_mem (lv : String) :
    ∀ fuel i st j, j ∉ specPreorder fuel i (struct st) →
      (setLogLevelAux lv fuel i st).nodes[j]? = st.nodes[j]? := by
  intro fuel
  induction fuel with
  | zero => intro i st j _; rfl
  | succ fuel ih =>
      intro i st j hj
      rw [setLogLevelAux]
      cases hnd : st.nodes[i]? with
      | none => rfl
      | some nd =>
          have hpre : specPreorder (fuel + 1) i (struct st)
              = i :: nd.children.flatMap (fun c => specPreorder fuel c (struct st)) := by
            rw [specPreorder, struct_getElem?, hnd]; rfl
          rw [hpre] at hj
          have hji : j ≠ i := fun h => hj (h ▸ List.mem_cons_self _ _)
          have hjc : ∀ c ∈ nd.children, j ∉ specPreorder fuel c (struct st) := by
            intro c hc hmem
            exact hj (List.mem_cons_of_mem _ (List.mem_flatMap.mpr ⟨c, hc, hmem⟩))
          have hfold : ∀ (cs : List Nat) (s : St), struct s = struct st →
              (∀ c ∈ cs, j ∉ specPreorder fuel c (struct st)) →
              s.nodes[j]? = st.nodes[j]? →
              (cs.foldl (fun s c => setLogLevelAux lv fuel c s) s).nodes[j]? = st.nodes[j]? := by
            intro cs
            induction cs with
            | nil => intro s _ _ h; exact h
            | cons c cs ihc =>
                intro s hsct hcs hsj
                rw [List.foldl_cons]
                have h1 : (setLogLevelAux lv fuel c s).nodes[j]? = s.nodes[j]? := by
                  apply ih
                  rw [hsct]
                  exact hcs c (List.mem_cons_self _ _)
                exact ihc _ (by rw [(setLogLevelAux_struct lv fuel c s).1, hsct])
                  (fun c' hc' => hcs c' (List.mem_cons_of_mem _ hc'))
                  (by rw [h1, hsj])
          exact hfold _ _ (struct_set_level lv hnd) hjc
            (by rw [List.getElem?_set_ne (Ne.symm hji)])

theorem setLogLevelAux_mem (lv : String) :
    ∀ fuel i st j, j ∈ specPreorder fuel i (struct st) →
      (setLogLevelAux lv fuel i st).nodes[j]? = bump lv st.nodes[j]? := by
  intro fuel
  induction fuel with
  | zero => intro i st j hj; simp [specPreorder] at hj
  | succ fuel ih =>
      intro i st j hj
      rw [setLogLevelAux]
      cases hnd : st.nodes[i]? with
      | none =>
          rw [specPreorder, struct_getElem?, hnd] at hj
          simp at hj
      | some nd =>
          have hpre : specPreorder (fuel + 1) i (struct st)
              = i :: nd.children.flatMap (fun c => specPreorder fuel c (struct st)) := by
            rw [specPreorder, struct_getElem?, hnd]; rfl
          rw [hpre] at hj
          have hkeep : ∀ (cs : List Nat) (s : St),
              s.nodes[j]? = bump lv st.nodes[j]? →
              (cs.foldl (fun s c => setLogLevelAux lv fuel c s) s).nodes[j]? = bump lv st.nodes[j]? := by
            intro cs
            induction cs with
            | nil => intro s h; exact h
            | cons c cs ihc =>
                intro s h
                rw [List.foldl_cons]
                apply ihc
                rcases setLogLevelAux_cases lv fuel c s j with h2 | h2
                · rw [h2, h]
                · rw [h2, h, bump_idem]
          by_cases hji : j = i
          · subst hji
            have hlen : j < st.nodes.length := (List.getElem?_eq_some.mp hnd).1
            apply hkeep
            rw [List.getElem?_set_eq_of_lt _ hlen, hnd]
            rfl
          · have hjf : j ∈ nd.children.flatMap (fun c => specPreorder fuel c (struct st)) := by
              rcases List.mem_cons.mp hj with h | h
              · exact absurd h hji
              · exact h
            have hfoldmem : ∀ (cs : List Nat) (s : St), struct s = struct st →
                s.nodes[j]? = st.nodes[j]? →
                (∃ c ∈ cs, j ∈ specPreorder fuel c (struct st)) →
                (cs.foldl (fun s c => setLogLevelAux lv fuel c s) s).nodes[j]?
                  = bump lv st.nodes[j]? := by
              intro cs
              induction cs with
              | nil =>
                  intro s _ _ hex
                  rcases hex with ⟨c, hc, _⟩
                  cases hc
              | cons c0 cs ihc =>
                  intro s hsct hsj hex
                  rw [List.foldl_cons]
                  by_cases hmem0 : j ∈ specPreorder fuel c0 (struct st)
                  · have h1 : (setLogLevelAux lv fuel c0 s).nodes[j]? = bump lv s.nodes[j]? := by
                      apply ih
                      rw [hsct]
                      exact hmem0
                    apply hkeep
                    rw [h1, hsj]
                  · have h1 : (setLogLevelAux lv fuel c0 s).nodes[j]? = s.nodes[j]? := by
                      apply setLogLevelAux_not_mem
                      rw [hsct]
                      exact hmem0
                    have hex' : ∃ c ∈ cs, j ∈ specPreorder fuel c (struct st) := by
                      rcases hex with ⟨c', hc', hm'⟩
                      rcases List.mem_cons.mp hc' with hcc | hc''
                      · rw [hcc] at hm'
                        exact absurd hm' hmem0
                      · exact ⟨c', hc'', hm'⟩
                    exact ihc _ (by rw [(setLogLevelAux_struct lv fuel c0 s).1, hsct])
                      (by rw [h1, hsj]) hex'
            exact hfoldmem _ _ (struct_set_level lv hnd)
              (by rw [List.getElem?_set_ne (fun h => hji h.symm)])
              (List.mem_flatMap.mp hjf)

theorem nodesWF_children : ∀ (l : List Node) (k n i : Nat) (nd : Node),
    nodesWF k l n = true → l[i]? = some nd → ∀ c ∈ nd.children, k + i < c ∧ c < n := by
  intro l
  induction l with
  | nil => intro k n i nd h hi; simp at hi
  | cons x t ihl =>
      intro k n i nd h hi
      rw [nodesWF, Bool.and_eq_true] at h
      cases i with
      | zero =>
          simp only [List.getElem?_cons_zero, Option.some.injEq] at hi
          subst hi
          intro c hc
          have hall := List.all_eq_true.mp h.1 c hc
          rw [Bool.and_eq_true, decide_eq_true_eq, decide_eq_true_eq] at hall
          exact ⟨by omega, hall.2⟩
      | succ i =>
          intro c hc
          have hrec := ihl (k + 1) n i nd h.2 (by simpa using hi) c hc
          exact ⟨by omega, hrec.2⟩

theorem WF_children {st : St} (hWF : WF st) {i : Nat} {nd : Node}
    (hnd : st.nodes[i]? = some nd) : ∀ c ∈ nd.children, i < c ∧ c < st.nodes.length := by
  intro c hc
  have h := nodesWF_children st.nodes 0 st.nodes.length i nd hWF hnd c hc
  exact ⟨by omega, h.2⟩

theorem specPreorder_ge {st : St} (hWF : WF st) :
    ∀ (fuel i j : Nat), j ∈ specPreorder fuel i (struct st) → i ≤ j := by
  intro fuel
  induction fuel with
  | zero => intro i j hj; simp [specPreorder] at hj
  | succ fuel ih =>
      intro i j hj
      rw [specPreorder] at hj
      cases hs : (struct st)[i]? with
      | none => rw [hs] at hj; simp at hj
      | some cs =>
          rw [hs] at hj
          simp only at hj
          rcases List.mem_cons.mp hj with h | h
          · omega
          · rcases List.mem_flatMap.mp h with ⟨c, hc, hm⟩
            rw [struct_getElem?] at hs
            rcases Option.map_eq_some'.mp hs with ⟨nd, hnd, hch⟩
            have hic : i < c := (WF_children hWF hnd c (hch ▸ hc)).1
            have := ih c j hm
            omega

/-! ## `getInstance` evaluation equations and registry facts -/

theorem getInstance_lookup_some {e : Env} {sn : Option String} {st : St} {i : Nat}
    (h : List.lookup (keyOf sn) st.instances = some i) :
    Logger.getInstance e sn st = (i, st) := by
  simp only [Logger.getInstance]
  rw [h]

theorem getInstance_lookup_none {e : Env} {sn : Option String} {st : St}
    (h : List.lookup (keyOf sn) st.instances = none) :
    Logger.getInstance e sn st
      = (st.nodes.length,
         { nodes := st.nodes ++ [{ level := (rootConfig e (keyOf sn)).level, children := [] }],
           instances := st.instances ++ [(keyOf sn, st.nodes.length)],
           trace := st.trace ++ [BEvent.create (rootConfig e (keyOf sn))
             (normalizedEnv e != "production")] }) := by
  simp only [Logger.getInstance]
  rw [h]

theorem getInstance_key_congr (e : Env) {s1 s2 : Option String} (st : St)
    (h : keyOf s1 = keyOf s2) :
    Logger.getInstance e s1 st = Logger.getInstance e s2 st := by
  simp only [Logger.getInstance]
  rw [h]

theorem regWF_lookup_lt {st : St} (hreg : regWF st) {k : String} {v : Nat}
    (h : List.lookup k st.instances = some v) : v < st.nodes.length := by
  rcases List.mem_map.mp (lookup_mem_snd h) with ⟨p, hp, hpe⟩
  exact hpe ▸ hreg.2.2 p hp

/-! ## Concrete fixtures -/

/-- A development environment: `NODE_ENV` unset, no overrides. -/
def devEnvC : Env :=
  { NODE_ENV := none, LOG_DIR := none, npm_package_version := none, cwd := "/srv" }

/-- A production environment with a log-directory override and version 9.8.7. -/
def prodEnvC : Env :=
  { NODE_ENV := some "production", LOG_DIR := some "/my/logs",
    npm_package_version := some "9.8.7", cwd := "/srv" }

/-- A small well-formed state: root node 0 with children 1 and 2,
grandchild 3 under node 1. -/
def sampleSt : St :=
  { nodes := [ { level := "debug", children := [1, 2] },
               { level := "debug", children := [3] },
               { level := "debug", children := [] },
               { level := "debug", children := [] } ],
    instances := [("@juntu/logger", 0)],
    trace := [] }

theorem child_lookup_some {i : Nat} {b : Bindings} {st : St} {nd : Node}
    (h : st.nodes[i]? = some nd) :
    Logger.child i b st
      = (st.nodes.length,
         { nodes := (st.nodes.set i { nd with children := nd.children ++ [st.nodes.length] })
             ++ [{ level := nd.level, children := [] }],
           instances := st.instances,
           trace := st.trace ++ [BEvent.childEv i (childBindings b)] }) := by
  simp only [Logger.child]
  rw [h]

/-! ## Claim theorems -/

/-- C8: each of the five leveled operations (`fatal`, `error`, `warn`,
`info`, `debug`), called on any node — root or derived child alike, since
`i` ranges over every node — invokes the wrapped backend handle's
same-named method with the message and the supplementary arguments
unchanged and in order, and changes nothing else of the state: no
transformation and no error interception happens in the wrapper. -/
theorem c8_leveled_forwarding (i : Nat) (msg : String) (args : List String) (st : St) :
    ((Logger.fatal i msg args st).trace
        = st.trace ++ [BEvent.logEv i LogLevel.FATAL msg args] ∧
      (Logger.fatal i msg args st).nodes = st.nodes ∧
      (Logger.fatal i msg args st).instances = st.instances) ∧
    ((Logger.error i msg args st).trace
        = st.trace ++ [BEvent.logEv i LogLevel.ERROR msg args] ∧
      (Logger.error i msg args st).nodes = st.nodes ∧
      (Logger.error i msg args st).instances = st.instances) ∧
    ((Logger.warn i msg args st).trace
        = st.trace ++ [BEvent.logEv i LogLevel.WARN msg args] ∧
      (Logger.warn i msg args st).nodes = st.nodes ∧
      (Logger.warn i msg args st).instances = st.instances) ∧
    ((Logger.info i msg args st).trace
        = st.trace ++ [BEvent.logEv i LogLevel.INFO msg args] ∧
      (Logger.info i msg args st).nodes = st.nodes ∧
      (Logger.info i msg args st).instances = st.instances) ∧
    ((Logger.debug i msg args st).trace
        = st.trace ++ [BEvent.logEv i LogLevel.DEBUG msg args] ∧
      (Logger.debug i msg args st).nodes = st.nodes ∧
      (Logger.debug i msg args st).instances = st.instances) :=
  ⟨⟨rfl, rfl, rfl⟩, ⟨rfl, rfl, rfl⟩, ⟨rfl, rfl, rfl⟩, ⟨rfl, rfl, rfl⟩, ⟨rfl, rfl, rfl⟩⟩

/-- C3: `child(bindings)` on a node whose bindings carry `name ↦ n` hands
the backend exactly the remaining fields merged with `module ↦ n` (no
`name` key survives), appends the new node to the caller's children list,
and returns that new node. -/
theorem c3_child_derivation (i : Nat) (b : Bindings) (st : St) (nd : Node) (n : String)
    (hnode : st.nodes[i]? = some nd)
    (hname : List.lookup "name" b = some (JVal.str n)) :
    (Logger.child i b st).2.trace = st.trace ++ [BEvent.childEv i (childBindings b)] ∧
    jsGet (childBindings b) "module" = JVal.str n ∧
    List.lookup "name" (childBindings b) = none ∧
    (∀ k : String, k ≠ "name" → k ≠ "module" → jsGet (childBindings b) k = jsGet b k) ∧
    (Logger.child i b st).1 = st.nodes.length ∧
    (Logger.child i b st).2.nodes[i]?
      = some { nd with children := nd.children ++ [st.nodes.length] } ∧
    (Logger.child i b st).2.nodes[st.nodes.length]?
      = some { level := nd.level, children := [] } := by
  have hlen : i < st.nodes.length := (List.getElem?_eq_some.mp hnode).1
  rw [child_lookup_some hnode]
  refine ⟨rfl, ?_, childBindings_name b, ?_, rfl, ?_, ?_⟩
  · rw [jsGet, childBindings_module, jsGet, hname]
    rfl
  · intro k h1 h2
    rw [jsGet, childBindings_other h1 h2, jsGet]
  · show ((st.nodes.set i { nd with children := nd.children ++ [st.nodes.length] })
        ++ [{ level := nd.level, children := [] }])[i]? = _
    rw [List.getElem?_append]
    rw [if_pos (by rw [List.length_set]; exact hlen)]
    exact List.getElem?_set_eq_of_lt _ hlen
  · show ((st.nodes.set i { nd with children := nd.children ++ [st.nodes.length] })
        ++ [{ level := nd.level, children := [] }])[st.nodes.length]? = _
    rw [List.getElem?_append_right (le_of_eq (List.length_set st.nodes i _))]
    rw [List.length_set, Nat.sub_self]
    rfl

/-- Concrete bindings carrying a `name` field and one extra field. -/
def bC3 : Bindings := [("name", JVal.str "modA"), ("foo", JVal.str "bar")]

theorem c3_child_derivation_witness :
    (Logger.child 2 bC3 sampleSt).2.trace
        = sampleSt.trace ++ [BEvent.childEv 2 (childBindings bC3)] ∧
    jsGet (childBindings bC3) "module" = JVal.str "modA" ∧
    List.lookup "name" (childBindings bC3) = none ∧
    jsGet (childBindings bC3) "foo" = jsGet bC3 "foo" ∧
    (Logger.child 2 bC3 sampleSt).1 = sampleSt.nodes.length ∧
    (Logger.child 2 bC3 sampleSt).2.nodes[2]?
      = some { level := "debug", children := [sampleSt.nodes.length] } ∧
    (Logger.child 2 bC3 sampleSt).2.nodes[sampleSt.nodes.length]?
      = some { level := "debug", children := [] } := by
  have h := c3_child_derivation 2 bC3 sampleSt { level := "debug", children := [] } "modA"
    rfl rfl
  exact ⟨h.1, h.2.1, h.2.2.1, h.2.2.2.1 "foo" (by decide) (by decide),
    h.2.2.2.2.1, h.2.2.2.2.2.1, h.2.2.2.2.2.2⟩

/-- C10: when the caller's bindings contain both a `name` key (value `n`)
and a `module` key, the derived bindings bind `module` to `n`: the
caller-supplied `module` value is silently overwritten by the renamed
`name` value. -/
theorem c10_module_overwritten (b : Bindings) (n : String) (w : JVal)
    (hname : List.lookup "name" b = some (JVal.str n))
    (hmod : List.lookup "module" b = some w) :
    jsGet (childBindings b) "module" = JVal.str n := by
  rw [jsGet, childBindings_module, jsGet, hname]
  rfl

theorem c10_module_overwritten_witness :
    jsGet (childBindings [("name", JVal.str "modA"), ("module", JVal.str "clobbered")])
        "module" = JVal.str "modA" :=
  c10_module_overwritten _ "modA" (JVal.str "clobbered") rfl rfl

/-- C2: `getInstance` with an omitted or falsy argument (`undefined` or
the empty string) behaves exactly like `getInstance` on the fixed default
service-name key, and a root constructed this way is configured with the
default service name in its base fields. -/
theorem c2_falsy_default (e : Env) (st : St) :
    Logger.getInstance e none st = Logger.getInstance e (some "") st ∧
    Logger.getInstance e none st
      = Logger.getInstance e (some DEFAULT_SERVICE_NAME) st ∧
    (List.lookup DEFAULT_SERVICE_NAME st.instances = none →
      (Logger.getInstance e none st).2.trace
        = st.trace ++ [BEvent.create (rootConfig e DEFAULT_SERVICE_NAME)
            (normalizedEnv e != "production")] ∧
      List.lookup "service" (rootConfig e DEFAULT_SERVICE_NAME).base
        = some (some DEFAULT_SERVICE_NAME)) := by
  have hk1 : keyOf none = DEFAULT_SERVICE_NAME := rfl
  have hk2 : keyOf (some "") = DEFAULT_SERVICE_NAME := by
    rw [keyOf, if_pos rfl]
  have hk3 : keyOf (some DEFAULT_SERVICE_NAME) = DEFAULT_SERVICE_NAME := by
    rw [keyOf, if_neg (by decide)]
  refine ⟨getInstance_key_congr e st (hk1.trans hk2.symm),
    getInstance_key_congr e st (hk1.trans hk3.symm), ?_⟩
  intro h
  constructor
  · rw [getInstance_lookup_none (hk1 ▸ h)]
    rfl
  · rw [rootConfig]
    by_cases hp : normalizedEnv e = "production"
    · rw [if_pos hp, prodConfig]
      rfl
    · rw [if_neg hp, devConfig]
      rfl

theorem c2_falsy_default_witness :
    Logger.getInstance devEnvC none initSt = Logger.getInstance devEnvC (some "") initSt ∧
    Logger.getInstance devEnvC none initSt
      = Logger.getInstance devEnvC (some DEFAULT_SERVICE_NAME) initSt ∧
    ((Logger.getInstance devEnvC none initSt).2.trace
        = initSt.trace ++ [BEvent.create (rootConfig devEnvC DEFAULT_SERVICE_NAME)
            (normalizedEnv devEnvC != "production")] ∧
      List.lookup "service" (rootConfig devEnvC DEFAULT_SERVICE_NAME).base
        = some (some DEFAULT_SERVICE_NAME)) := by
  have h := c2_falsy_default devEnvC initSt
  exact ⟨h.1, h.2.1, h.2.2 rfl⟩

/-- C6: in production mode (`NODE_ENV = "production"`) with package
version `9.8.7`, the config built for a new root named `svcProd` has
level `info`, a single `pino/file` target whose destination is `app.log`
joined under the configured log directory (`LOG_DIR` when set, otherwise
the `logs` subdirectory of the working directory), message key `message`,
and base fields exactly `{env: "production", version: "9.8.7",
service: "svcProd"}`. -/
theorem c6_production_config (e : Env)
    (henv : e.NODE_ENV = some "production")
    (hver : e.npm_package_version = some "9.8.7") :
    rootConfig e "svcProd"
      = { targets := [{ target := "pino/file", level := "info",
                        options := { destination := pathJoin (logDir e) "app.log",
                                     mkdir := true, sync := false } }],
          level := "info",
          messageKey := some "message",
          hasTimestamp := true,
          base := [("env", some "production"), ("version", some "9.8.7"),
                   ("service", some "svcProd")] } ∧
    (e.LOG_DIR = none → logDir e = pathJoin e.cwd "logs") ∧
    (∀ d, e.LOG_DIR = some d → logDir e = d) := by
  have hp : normalizedEnv e = "production" := by
    rw [normalizedEnv, henv]
    rfl
  refine ⟨?_, ?_, ?_⟩
  · rw [rootConfig, if_pos hp, prodConfig, logFile, henv, hver]
  · intro h
    rw [logDir, h]
    rfl
  · intro d h
    rw [logDir, h]
    rfl

theorem c6_production_config_witness :
    rootConfig prodEnvC "svcProd"
      = { targets := [{ target := "pino/file", level := "info",
                        options := { destination := pathJoin (logDir prodEnvC) "app.log",
                                     mkdir := true, sync := false } }],
          level := "info",
          messageKey := some "message",
          hasTimestamp := true,
          base := [("env", some "production"), ("version", some "9.8.7"),
                   ("service", some "svcProd")] } ∧
    logDir prodEnvC = "/my/logs" := by
  have h := c6_production_config prodEnvC rfl rfl
  exact ⟨h.1, h.2.2 "/my/logs" rfl⟩

/-- C7: constructing a new root chooses between exactly the two backend
configurations on the trimmed, lower-cased `NODE_ENV`: the normalised
value `production` selects the production file config with no pretty
sink, every other value (including unset) selects the development config
— pretty sink, minimum severity `debug`, base `{service: <key>}` only —
and exactly one backend factory call occurs per constructed root (none
when the root is already cached). -/
theorem c7_env_selects_config (e : Env) (sn : Option String) (st : St) :
    (List.lookup (keyOf sn) st.instances = none →
      (Logger.getInstance e sn st).2.trace
        = st.trace ++ [BEvent.create (rootConfig e (keyOf sn))
            (normalizedEnv e != "production")]) ∧
    (∀ i, List.lookup (keyOf sn) st.instances = some i →
      (Logger.getInstance e sn st).2.trace = st.trace) ∧
    (normalizedEnv e = "production" →
      rootConfig e (keyOf sn) = prodConfig e (keyOf sn) ∧
      (normalizedEnv e != "production") = false) ∧
    (¬ normalizedEnv e = "production" →
      rootConfig e (keyOf sn)
        = { targets := [], level := "debug", messageKey := none, hasTimestamp := false,
            base := [("service", some (keyOf sn))] } ∧
      (normalizedEnv e != "production") = true) := by
  refine ⟨?_, ?_, ?_, ?_⟩
  · intro h
    rw [getInstance_lookup_none h]
  · intro i h
    rw [getInstance_lookup_some h]
  · intro hp
    refine ⟨by rw [rootConfig, if_pos hp], ?_⟩
    simp [bne, hp]
  · intro hp
    refine ⟨by rw [rootConfig, if_neg hp, devConfig], bne_iff_ne.mpr hp⟩

theorem c7_env_selects_config_witness :
    ((Logger.getInstance prodEnvC (some "svcProd") initSt).2.trace
        = initSt.trace ++ [BEvent.create (rootConfig prodEnvC (keyOf (some "svcProd")))
            (normalizedEnv prodEnvC != "production")]) ∧
    (rootConfig prodEnvC (keyOf (some "svcProd"))
        = prodConfig prodEnvC (keyOf (some "svcProd")) ∧
      (normalizedEnv prodEnvC != "production") = false) ∧
    (rootConfig devEnvC (keyOf (some "svcDev"))
        = { targets := [], level := "debug", messageKey := none, hasTimestamp := false,
            base := [("service", some (keyOf (some "svcDev")))] } ∧
      (normalizedEnv devEnvC != "production") = true) ∧
    ((Logger.getInstance devEnvC (some "@juntu/logger") sampleSt).2.trace
        = sampleSt.trace) := by
  have h1 := c7_env_selects_config prodEnvC (some "svcProd") initSt
  have h2 := c7_env_selects_config devEnvC (some "svcDev") initSt
  have h3 := c7_env_selects_config devEnvC (some "@juntu/logger") sampleSt
  exact ⟨h1.1 rfl, h1.2.2.1 (by decide), h2.2.2.2 (by decide), h3.2.1 0 rfl⟩

/-- C1 as stated fails: the empty string and `"@juntu/logger"` are two
distinct service-name strings, yet `getInstance` returns the identical
root node for both, because a falsy argument falls back to the default
key `"@juntu/logger"`. -/
theorem c1_distinct_names_counterexample :
    ("" : String) ≠ "@juntu/logger" ∧
    (Logger.getInstance devEnvC (some "@juntu/logger")
        (Logger.getInstance devEnvC (some "") initSt).2).1
      = (Logger.getInstance devEnvC (some "") initSt).1 := by
  refine ⟨by decide, ?_⟩
  rfl

/-- C1 (amended): on a well-formed registry, repeated `getInstance(s)`
calls return the identical node for every service-name string `s`, and
`getInstance(s1)` and `getInstance(s2)` return distinct root nodes
whenever the registry keys derived from `s1` and `s2` (after the
falsy-argument fallback to the default key) differ — in particular for
any two distinct non-empty, non-default-aliased names. -/
theorem c1_instance_identity (e : Env) (s s1 s2 : Option String) (st : St)
    (hreg : regWF st) :
    (Logger.getInstance e s (Logger.getInstance e s st).2).1
      = (Logger.getInstance e s st).1 ∧
    (keyOf s1 ≠ keyOf s2 →
      (Logger.getInstance e s2 (Logger.getInstance e s1 st).2).1
        ≠ (Logger.getInstance e s1 st).1) := by
  constructor
  · cases h : List.lookup (keyOf s) st.instances with
    | some i =>
        rw [getInstance_lookup_some h]
        show (Logger.getInstance e s st).1 = i
        rw [getInstance_lookup_some h]
    | none =>
        simp only [Logger.getInstance, h]
        rw [lookup_append_of_none h]
        simp [List.lookup]
  · intro hk
    cases h1 : List.lookup (keyOf s1) st.instances with
    | some i1 =>
        rw [getInstance_lookup_some h1]
        show (Logger.getInstance e s2 st).1 ≠ i1
        cases h2 : List.lookup (keyOf s2) st.instances with
        | some i2 =>
            rw [getInstance_lookup_some h2]
            show i2 ≠ i1
            exact Ne.symm (lookup_nodup_ne hreg.2.1 hk h1 h2)
        | none =>
            rw [getInstance_lookup_none h2]
            show st.nodes.length ≠ i1
            have hlt := regWF_lookup_lt hreg h1
            omega
    | none =>
        simp only [Logger.getInstance, h1]
        have h2' : List.lookup (keyOf s2)
            (st.instances ++ [(keyOf s1, st.nodes.length)])
            = List.lookup (keyOf s2) st.instances := by
          cases hl : List.lookup (keyOf s2) st.instances with
          | some w => exact lookup_append_of_some hl
          | none =>
              rw [lookup_append_of_none hl, lookup_single_ne (Ne.symm hk)]
        rw [h2']
        cases h2 : List.lookup (keyOf s2) st.instances with
        | some i2 =>
            show i2 ≠ st.nodes.length
            have hlt := regWF_lookup_lt hreg h2
            omega
        | none =>
            have hgoal : ∀ (x : Node), (st.nodes ++ [x]).length ≠ st.nodes.length := by
              intro x
              rw [List.length_append]
              simp
            exact hgoal _

theorem c1_instance_identity_witness :
    ((Logger.getInstance devEnvC (some "alpha")
        (Logger.getInstance devEnvC (some "alpha") initSt).2).1
      = (Logger.getInstance devEnvC (some "alpha") initSt).1) ∧
    ((Logger.getInstance devEnvC (some "beta")
        (Logger.getInstance devEnvC (some "alpha") initSt).2).1
      ≠ (Logger.getInstance devEnvC (some "alpha") initSt).1) := by
  have h := c1_instance_identity devEnvC (some "alpha") (some "alpha") (some "beta") initSt
    (by decide)
  exact ⟨h.1, h.2 (by decide)⟩

/-- C4: `setLogLevel(L)` on node `i` emits backend threshold assignments
in exactly depth-first pre-order of the subtree rooted at `i`: the trace
grows by one `setLevelEv` per subtree node, ordered as `specPreorder`
lists them — the node itself first (the traversal's head is `i`), then
each child's subtree in the order the children were added. -/
theorem c4_cascade_preorder (i : Nat) (lv : LogLevel) (st : St)
    (hWF : WF st) (hi : i < st.nodes.length) :
    (Logger.setLogLevel i lv st).trace
      = st.trace ++ (specPreorder (st.nodes.length + 1) i (struct st)).map
          (fun j => BEvent.setLevelEv j (levelStr lv)) ∧
    (specPreorder (st.nodes.length + 1) i (struct st)).head? = some i := by
  constructor
  · exact setLogLevelAux_trace (levelStr lv) (st.nodes.length + 1) i st
  · cases hnd : st.nodes[i]? with
    | none =>
        rw [List.getElem?_eq_none_iff] at hnd
        omega
    | some nd =>
        rw [show specPreorder (st.nodes.length + 1) i (struct st)
            = i :: nd.children.flatMap (fun c => specPreorder st.nodes.length c (struct st))
          from by rw [specPreorder, struct_getElem?, hnd]; rfl]
        rfl

theorem c4_cascade_preorder_witness :
    (Logger.setLogLevel 0 LogLevel.WARN sampleSt).trace
      = sampleSt.trace ++ (specPreorder (sampleSt.nodes.length + 1) 0 (struct sampleSt)).map
          (fun j => BEvent.setLevelEv j (levelStr LogLevel.WARN)) ∧
    (specPreorder (sampleSt.nodes.length + 1) 0 (struct sampleSt)).head? = some 0 :=
  c4_cascade_preorder 0 LogLevel.WARN sampleSt (by decide) (by decide)

/-- C5: `setLogLevel(L)` on node `i` of a well-formed tree changes the
thresholds of exactly the nodes in the pre-order subtree of `i` (the node
itself — which is in the subtree — and every descendant existing at the
call), setting each to `L`; every node outside that subtree, in
particular every sibling and every ancestor (all subtree members have
index at least `i`, while ancestors have smaller indices), keeps its
state unchanged, and the registry is untouched. -/
theorem c5_cascade_frame (i : Nat) (lv : LogLevel) (st : St)
    (hWF : WF st) (hi : i < st.nodes.length) :
    (∀ j, j ∈ specPreorder (st.nodes.length + 1) i (struct st) →
        (Logger.setLogLevel i lv st).nodes[j]? = bump (levelStr lv) st.nodes[j]?) ∧
    (∀ j, j ∉ specPreorder (st.nodes.length + 1) i (struct st) →
        (Logger.setLogLevel i lv st).nodes[j]? = st.nodes[j]?) ∧
    i ∈ specPreorder (st.nodes.length + 1) i (struct st) ∧
    (∀ j, j ∈ specPreorder (st.nodes.length + 1) i (struct st) → i ≤ j) ∧
    (Logger.setLogLevel i lv st).instances = st.instances := by
  refine ⟨?_, ?_, ?_, ?_, ?_⟩
  · intro j hj
    exact setLogLevelAux_mem (levelStr lv) (st.nodes.length + 1) i st j hj
  · intro j hj
    exact setLogLevelAux_not_mem (levelStr lv) (st.nodes.length + 1) i st j hj
  · cases hnd : st.nodes[i]? with
    | none =>
        rw [List.getElem?_eq_none_iff] at hnd
        omega
    | some nd =>
        rw [show specPreorder (st.nodes.length + 1) i (struct st)
            = i :: nd.children.flatMap (fun c => specPreorder st.nodes.length c (struct st))
          from by rw [specPreorder, struct_getElem?, hnd]; rfl]
        exact List.mem_cons_self _ _
  · intro j hj
    exact specPreorder_ge hWF (st.nodes.length + 1) i j hj
  · exact (setLogLevelAux_struct (levelStr lv) (st.nodes.length + 1) i st).2

theorem c5_cascade_frame_witness :
    ((Logger.setLogLevel 1 LogLevel.WARN sampleSt).nodes[3]?
        = bump (levelStr LogLevel.WARN) sampleSt.nodes[3]?) ∧
    ((Logger.setLogLevel 1 LogLevel.WARN sampleSt).nodes[0]? = sampleSt.nodes[0]?) ∧
    ((Logger.setLogLevel 1 LogLevel.WARN sampleSt).nodes[2]? = sampleSt.nodes[2]?) ∧
    (1 ∈ specPreorder (sampleSt.nodes.length + 1) 1 (struct sampleSt)) ∧
    (1 ≤ 3) ∧
    ((Logger.setLogLevel 1 LogLevel.WARN sampleSt).instances = sampleSt.instances) := by
  have h := c5_cascade_frame 1 LogLevel.WARN sampleSt (by decide) (by decide)
  exact ⟨h.1 3 (by decide), h.2.1 0 (by decide), h.2.1 2 (by decide), h.2.2.1,
    h.2.2.2.1 3 (by decide), h.2.2.2.2⟩

/-- C9: children lists are append-only across every public operation:
`child` on node `i` grows the arena by exactly one node and appends
exactly that node to the caller's children list, leaving every other
node's entry intact; `getInstance` leaves every existing node intact;
`setLogLevel` preserves every node's children list; the five leveled
emissions leave the arena untouched — no entry is ever removed, replaced
or reordered. -/
theorem c9_children_append_only (e : Env) (sn : Option String) (i : Nat) (b : Bindings)
    (lv : LogLevel) (msg : String) (args : List String) (st : St)
    (j : Nat) (old : Node) (hj : st.nodes[j]? = some old) (hi : i < st.nodes.length) :
    ((Logger.getInstance e sn st).2.nodes[j]? = some old) ∧
    ((Logger.child i b st).2.nodes.length = st.nodes.length + 1) ∧
    ((Logger.child i b st).2.nodes[j]?
        = some (if j = i then { old with children := old.children ++ [st.nodes.length] }
                else old)) ∧
    (((Logger.setLogLevel i lv st).nodes[j]?).map Node.children = some old.children) ∧
    ((Logger.fatal i msg args st).nodes = st.nodes) ∧
    ((Logger.error i msg args st).nodes = st.nodes) ∧
    ((Logger.warn i msg args st).nodes = st.nodes) ∧
    ((Logger.info i msg args st).nodes = st.nodes) ∧
    ((Logger.debug i msg args st).nodes = st.nodes) := by
  have hjlen : j < st.nodes.length := (List.getElem?_eq_some.mp hj).1
  cases hni : st.nodes[i]? with
  | none =>
      rw [List.getElem?_eq_none_iff] at hni
      omega
  | some ndi =>
  refine ⟨?_, ?_, ?_, ?_, rfl, rfl, rfl, rfl, rfl⟩
  · cases h : List.lookup (keyOf sn) st.instances with
    | some v =>
        rw [getInstance_lookup_some h]
        exact hj
    | none =>
        rw [getInstance_lookup_none h]
        show (st.nodes ++ [({ level := (rootConfig e (keyOf sn)).level, children := [] } : Node)])[j]? = some old
        rw [List.getElem?_append, if_pos hjlen]
        exact hj
  · rw [child_lookup_some hni]
    show ((st.nodes.set i { ndi with children := ndi.children ++ [st.nodes.length] })
        ++ [({ level := ndi.level, children := [] } : Node)]).length = st.nodes.length + 1
    rw [List.length_append, List.length_set]
    rfl
  · rw [child_lookup_some hni]
    by_cases hij : j = i
    · subst hij
      have heq : old = ndi := Option.some.inj (hj.symm.trans hni)
      subst heq
      rw [if_pos rfl]
      show ((st.nodes.set j { old with children := old.children ++ [st.nodes.length] })
          ++ [({ level := old.level, children := [] } : Node)])[j]? = _
      rw [List.getElem?_append, if_pos (by rw [List.length_set]; exact hjlen)]
      exact List.getElem?_set_eq_of_lt _ hjlen
    · rw [if_neg hij]
      show ((st.nodes.set i { ndi with children := ndi.children ++ [st.nodes.length] })
          ++ [({ level := ndi.level, children := [] } : Node)])[j]? = some old
      rw [List.getElem?_append, if_pos (by rw [List.length_set]; exact hjlen),
        List.getElem?_set_ne (fun h => hij h.symm)]
      exact hj
  · have hs : struct (Logger.setLogLevel i lv st) = struct st :=
      (setLogLevelAux_struct (levelStr lv) (st.nodes.length + 1) i st).1
    have h1 : ((Logger.setLogLevel i lv st).nodes[j]?).map Node.children
        = (st.nodes[j]?).map Node.children := by
      rw [← struct_getElem?, ← struct_getElem?, hs]
    rw [h1, hj]
    rfl

theorem c9_children_append_only_witness :
    ((Logger.getInstance devEnvC (some "x") sampleSt).2.nodes[1]?
        = some { level := "debug", children := [3] }) ∧
    ((Logger.child 1 [] sampleSt).2.nodes.length = sampleSt.nodes.length + 1) ∧
    ((Logger.child 1 [] sampleSt).2.nodes[1]?
        = some { level := "debug", children := [3, 4] }) ∧
    (((Logger.setLogLevel 1 LogLevel.WARN sampleSt).nodes[1]?).map Node.children
        = some [3]) ∧
    ((Logger.fatal 1 "m" [] sampleSt).nodes = sampleSt.nodes) ∧
    ((Logger.error 1 "m" [] sampleSt).nodes = sampleSt.nodes) ∧
    ((Logger.warn 1 "m" [] sampleSt).nodes = sampleSt.nodes) ∧
    ((Logger.info 1 "m" [] sampleSt).nodes = sampleSt.nodes) ∧
    ((Logger.debug 1 "m" [] sampleSt).nodes = sampleSt.nodes) := by
  have h := c9_children_append_only devEnvC (some "x") 1 [] LogLevel.WARN "m" [] sampleSt 1
    { level := "debug", children := [3] } rfl (by decide)
  exact ⟨h.1, h.2.1, h.2.2.1, h.2.2.2.1, h.2.2.2.2.1, h.2.2.2.2.2.1,
    h.2.2.2.2.2.2.1, h.2.2.2.2.2.2.2.1, h.2.2.2.2.2.2.2.2⟩
